import Mathlib

/-!
Shallow embedding of the DiscordClaudeBot message dispatch pipeline.

Strings are modelled as `List Char` (JavaScript string operations such as
`split`, `trim`, `slice` and `includes` act on code units; for the inputs
considered here `List Char` is the faithful counterpart).  Each definition
is translated from the TypeScript source file named in its doc comment.
-/

namespace DiscordBot

/-- The whitespace characters relevant to `String.prototype.trim` on the
inputs of this development (space, tab, newline, carriage return). -/
def isWS (c : Char) : Bool := c = ' ' || c = '\t' || c = '\n' || c = '\r'

/-- JavaScript `str.trim()`: remove leading and trailing whitespace. -/
def jsTrim (s : List Char) : List Char :=
  ((s.dropWhile isWS).reverse.dropWhile isWS).reverse

/-- JavaScript `str.split(sep)` for a one-character separator: the empty
string yields `[""]`, and consecutive separators yield empty pieces. -/
def jsSplit (sep : Char) : List Char → List (List Char)
  | [] => [[]]
  | c :: t =>
    if c = sep then [] :: jsSplit sep t
    else
      match jsSplit sep t with
      | [] => [[c]]
      | h :: r => (c :: h) :: r

/-- The slicing loop `for (let i = 0; i < w.length; i += n) push(w.slice(i, i + n))`
from `MessageSplitter.split` (fuel-indexed; fuel `w.length` suffices for `n ≥ 1`,
the only case in which the source loop terminates). -/
def hardSplitAux (n : ℕ) : ℕ → List Char → List (List Char)
  | _, [] => []
  | 0, w => [w]
  | f + 1, w => w.take n :: hardSplitAux n f (w.drop n)

/-- Character-level hard split of an over-long token, `src/rules/MessageSplitter.ts`
lines 39-41 and 52-54. -/
def hardSplit (n : ℕ) (w : List Char) : List (List Char) :=
  hardSplitAux n w.length w

/-- Splitter state: the emitted chunks and the accumulating `currentChunk`. -/
abbrev SplitState := List (List Char) × List Char

/-- One iteration of the word loop, `src/rules/MessageSplitter.ts` lines 31-49. -/
def processWord (n : ℕ) (st : SplitState) (w : List Char) : SplitState :=
  let chunks := st.1
  let curr := st.2
  if curr.length + w.length + 1 > n then
    if curr ≠ [] then (chunks ++ [jsTrim curr], w)
    else if w.length > n then (chunks ++ hardSplit n w, curr)
    else (chunks, w)
  else (chunks, curr ++ (if curr = [] then [] else [' ']) ++ w)

/-- One iteration of the line loop, `src/rules/MessageSplitter.ts` lines 19-62. -/
def processLine (n : ℕ) (st : SplitState) (line : List Char) : SplitState :=
  let chunks := st.1
  let curr := st.2
  if curr.length + line.length + 1 > n then
    let flushed : SplitState :=
      if curr ≠ [] then (chunks ++ [jsTrim curr], []) else (chunks, curr)
    if line.length > n then
      if line.contains ' ' then (jsSplit ' ' line).foldl (processWord n) flushed
      else (flushed.1 ++ hardSplit n line, flushed.2)
    else (flushed.1, line)
  else (chunks, curr ++ (if curr = [] then [] else ['\n']) ++ line)

namespace MessageSplitter

/-- `MessageSplitter.split(message, maxLength)`, `src/rules/MessageSplitter.ts`
lines 13-69: line-level greedy accumulation with word-level and character-level
fallbacks, final flush guarded by `currentChunk && currentChunk.trim()`. -/
def split (message : List Char) (maxLength : ℕ) : List (List Char) :=
  let st := (jsSplit '\n' message).foldl (processLine maxLength) ([], [])
  if st.2 ≠ [] ∧ jsTrim st.2 ≠ [] then st.1 ++ [jsTrim st.2] else st.1

end MessageSplitter

/-- JavaScript `haystack.startsWith(needle)` on `List Char`. -/
def startsWithChars : List Char → List Char → Bool
  | _, [] => true
  | [], _ :: _ => false
  | c :: hs, d :: ns => c = d && startsWithChars hs ns

/-- JavaScript `haystack.includes(needle)` on `List Char`. -/
def includesChars (hay needle : List Char) : Bool :=
  match hay with
  | [] => needle.isEmpty
  | _ :: t => startsWithChars hay needle || includesChars t needle

/-- An inbound Discord message as consumed by the classifier:
`msg.author.id`, `msg.author.bot`, `msg.content`, `msg.mentions.users`. -/
structure InboundMessage where
  authorId : List Char
  authorBot : Bool
  content : List Char
  mentionedUsers : List (List Char)
deriving DecidableEq

/-- The hard-coded E2E caller bot identifier, `src/rules/MessageProcessingRules.ts`
(`"1396643708224540752" // ClaudeBot-e2e-caller`). -/
def callerBotId : List Char := "1396643708224540752".toList

namespace MessageProcessingRules

/-- `isOwnMessage`: `msg.author.id === this.botId`. -/
def isOwnMessage (botId : List Char) (m : InboundMessage) : Bool :=
  m.authorId = botId

/-- `hasMention`: Harmony mention parse `msg.mentions.users.has(botId)` OR the
string-pattern fallback `msg.content.includes("<@" + botId + ">")`. -/
def hasMention (botId : List Char) (m : InboundMessage) : Bool :=
  m.mentionedUsers.contains botId ||
    includesChars m.content ('<' :: '@' :: (botId ++ ['>']))

/-- `shouldProcessBotMessage`: humans always pass; bot authors pass only in
test mode and only for the designated caller bot. -/
def shouldProcessBotMessage (testMode : Bool) (m : InboundMessage) : Bool :=
  if !m.authorBot then true
  else if testMode then
    if m.authorId ≠ callerBotId then false else true
  else false

/-- `MessageProcessingRules.shouldProcess` (same decision logic as
`DiscordBot.shouldProcessMessage` in `src/bot.ts` lines 87-133): reject own
messages, then reject disallowed bot authors, then require a mention. -/
def shouldProcess (botId : List Char) (testMode : Bool)
    (m : InboundMessage) : Bool :=
  if isOwnMessage botId m then false
  else
    let mentioned := hasMention botId m
    if !shouldProcessBotMessage testMode m then false
    else mentioned

end MessageProcessingRules

/-- A fetched Discord message as consumed by `getThreadHistory`:
`m.author.username`, `m.author.tag`, `m.content`, `m.createdAt.toISOString()`.
The empty string models a JavaScript falsy value for the `||` chains. -/
structure FetchedMessage where
  username : String
  tag : String
  content : String
  createdAt : String
deriving DecidableEq

/-- One entry of `ThreadContext.messages`, `src/types/discord.ts`. -/
structure ConversationEntry where
  author : String
  content : String
  timestamp : String
deriving DecidableEq

/-- The entry built from a message in `getThreadHistory` /
`createFallbackContext`: `author.username || author.tag || "Unknown"`,
`content || ""`, `createdAt.toISOString()`. -/
def toEntry (m : FetchedMessage) : ConversationEntry :=
  { author := if m.username ≠ "" then m.username
      else if m.tag ≠ "" then m.tag else "Unknown"
    content := m.content
    timestamp := m.createdAt }

/-- Result of the external `channel.fetchMessages({limit, before})` call:
either the collaborator's newest-first message list or a thrown error. -/
inductive FetchOutcome where
  | ok (msgs : List FetchedMessage)
  | err
deriving DecidableEq

/-- The per-request limit passed to `channel.fetchMessages`:
`Math.min(limit, 100)`, `src/discord/MessageProcessor.ts` line 90. -/
def fetchRequestLimit (limit : ℕ) : ℕ := min limit 100

/-- `MessageProcessor.fetchChannelMessages`, `src/discord/MessageProcessor.ts`
lines 72-144: on success, reverse the (newest-first) result into chronological
order and append the current message; on failure return `[]`. -/
def fetchChannelMessages (fetch : FetchOutcome) (currentMsg : FetchedMessage) :
    List FetchedMessage :=
  match fetch with
  | .ok msgs => msgs.reverse ++ [currentMsg]
  | .err => []

/-- `MessageProcessor.getThreadHistory`, `src/discord/MessageProcessor.ts`
lines 29-62: map the fetched messages to entries when anything was fetched,
otherwise fall back to a single-entry context built from the current message. -/
def getThreadHistory (fetch : FetchOutcome) (msg : FetchedMessage) :
    List ConversationEntry :=
  let fetched := fetchChannelMessages fetch msg
  if fetched.length > 0 then fetched.map toEntry
  else [toEntry msg]

/-- One observable delivery action of `sendMultipleMessages`; the wait records
the `delay(1000 / CONFIG.RATE_LIMIT_MESSAGES_PER_SECOND)` duration in ms. -/
inductive SendAction where
  | reply (content : List Char)
  | channelSend (content : List Char)
  | wait (ms : ℚ)
deriving DecidableEq

/-- The continuation marker `"(続き) "` prepended to every chunk after the
first, `src/discord/MessageProcessor.ts` line 188. -/
def contMarker : List Char := "(続き) ".toList

/-- The body of one iteration of the send loop,
`src/discord/MessageProcessor.ts` lines 186-197: chunk `i` is a reply with an
empty prefix when `i = 0` and a plain channel send with the continuation
marker otherwise, followed by the rate-limit delay. -/
def sendChunkActions (rate : ℚ) (i : ℕ) (chunk : List Char) : List SendAction :=
  let pre : List Char := if i = 0 then [] else contMarker
  if i = 0 then [SendAction.reply (pre ++ chunk), SendAction.wait (1000 / rate)]
  else [SendAction.channelSend (pre ++ chunk), SendAction.wait (1000 / rate)]

/-- `MessageProcessor.sendMultipleMessages`, `src/discord/MessageProcessor.ts`
lines 182-198, as the ordered trace of its delivery actions. -/
def sendMultipleMessages (rate : ℚ) (chunks : List (List Char)) :
    List SendAction :=
  chunks.enum.flatMap fun p => sendChunkActions rate p.1 p.2

/-- Decoded result of `cmd.output()` in `ClaudeExecutor.execute`. -/
structure CommandResult where
  success : Bool
  stdout : List Char
  stderr : List Char
deriving DecidableEq

/-- Outcome of one `ClaudeExecutor.execute` call: the returned string, the
thrown failure `Error` message, or the thrown timeout `Error`. -/
inductive ExecOutcome where
  | ok (text : List Char)
  | failed (message : List Char)
  | timedOut
deriving DecidableEq

/-- Whether an outcome is a success (a returned response string). -/
def ExecOutcome.isOk : ExecOutcome → Bool
  | .ok _ => true
  | _ => false

/-- The error-message classification for a failed CLI run,
`src/claude/executor.ts` lines 75-94: inspect stderr for known substrings. -/
def errorMessageFor (stderr : List Char) : List Char :=
  if includesChars stderr "command not found".toList ||
      includesChars stderr "No such file".toList then
    "Claude CLI command not found. Please install Claude CLI or check PATH.".toList
  else if includesChars stderr "permission denied".toList then
    "Permission denied. Please check Claude CLI permissions.".toList
  else if includesChars stderr "network".toList ||
      includesChars stderr "connection".toList then
    "Network error. Please check internet connection.".toList
  else if includesChars stderr "quota".toList ||
      includesChars stderr "limit".toList then
    "Rate limit or quota exceeded. Please try again later.".toList
  else if jsTrim stderr ≠ [] then
    "Claude CLI error: ".toList ++ jsTrim stderr
  else "Claude CLI execution failed".toList

/-- Completion handling of `ClaudeExecutor.execute`, `src/claude/executor.ts`
lines 56-105: a non-success exit throws the classified error, a success
returns `stdout.trim()` unconditionally. -/
def completionOutcome (r : CommandResult) : ExecOutcome :=
  if !r.success then .failed (errorMessageFor r.stderr)
  else .ok (jsTrim r.stdout)

/-- Which side of `Promise.race([executionPromise, timeoutPromise])` settles
first, `src/claude/executor.ts` lines 55-57. -/
inductive RaceWinner where
  | task (r : CommandResult)
  | timer
deriving DecidableEq

/-- The overall outcome of `ClaudeExecutor.execute` as a function of the race
winner: the timer rejection propagates out of the method as the timeout error. -/
def raceOutcome (w : RaceWinner) : ExecOutcome :=
  match w with
  | .task r => completionOutcome r
  | .timer => .timedOut

/-- What the `setTimeout` callback of the timeout promise does when it fires,
`src/claude/executor.ts` lines 45-53. -/
inductive TimerEffect where
  | rejectPromise
  | killProcess
deriving DecidableEq

/-- The complete effect list of the timer callback: it only rejects the
timeout promise (no `kill` or termination request appears in the source). -/
def timerFireEffects : List TimerEffect := [TimerEffect.rejectPromise]

/-- How one `handleMention` run ends, `src/bot.ts` lines 140-193: the try
body succeeds, or Claude execution throws, or sending the response throws;
in the failure cases the error reply itself may succeed or fail (the inner
catch swallows that failure). -/
inductive PipelineFate where
  | success
  | claudeFailed (errorReplyOk : Bool)
  | sendFailed (errorReplyOk : Bool)
deriving DecidableEq

/-- The effect of one `handleMention` run on `processingMessages`,
`src/bot.ts` lines 140-193: `add(msg.id)` first; neither the try body, the
catch block, nor the inner catch mutates the set; the `finally` block runs
`delete(msg.id)` on every path. -/
def handleMentionTracking (s : Finset String) (id : String)
    (fate : PipelineFate) : Finset String :=
  let afterAdd := insert id s
  let beforeFinally :=
    match fate with
    | .success => afterAdd
    | .claudeFailed _ => afterAdd
    | .sendFailed _ => afterAdd
  beforeFinally.erase id

/-- Number of messages delivered by the history-fetch collaborator. -/
def fetchedCount : FetchOutcome → ℕ
  | .ok msgs => msgs.length
  | .err => 0

/-- Newline test used to analyse `jsSplit '\n'`. -/
def isNL (c : Char) : Bool := c = '\n'

/-- Total size of a line list as measured against the original string:
each line contributes its length plus one (its separator or terminator). -/
def sumNL (ls : List (List Char)) : ℕ := (ls.map fun l => l.length + 1).sum

/-- Join a list of lines onto an existing first line, newline-separated. -/
def tailJoin : List (List Char) → List Char
  | [] => []
  | l :: ls => '\n' :: (l ++ tailJoin ls)

/-- Inverse of `jsSplit '\n'`: re-join lines with newlines. -/
def joinLines : List (List Char) → List Char
  | [] => []
  | l :: ls => l ++ tailJoin ls

/-- The pure accumulation path of the line loop (what `currentChunk` becomes
when no flush ever fires): lines are appended with a newline separator,
except onto an empty accumulator. -/
def appendLines (curr : List Char) (ls : List (List Char)) : List Char :=
  ls.foldl (fun c l => c ++ (if c = [] then [] else ['\n']) ++ l) curr

/-! ## Theorems -/

/-- C6: a message whose author identifier equals the bot's own identifier is
never processed, regardless of mention content, bot flag, or test mode. -/
theorem C6_self_message_rejected (botId : List Char) (testMode : Bool)
    (m : InboundMessage) (h : m.authorId = botId) :
    MessageProcessingRules.shouldProcess botId testMode m = false := by
  simp [MessageProcessingRules.shouldProcess, MessageProcessingRules.isOwnMessage, h]

/-- C6 witness: concrete self-authored message is rejected even with a mention,
bot flag set, and test mode on. -/
theorem C6_self_message_rejected_witness :
    (InboundMessage.mk "B".toList true "<@B> hi".toList ["B".toList]).authorId
        = "B".toList ∧
    MessageProcessingRules.shouldProcess "B".toList true
      (InboundMessage.mk "B".toList true "<@B> hi".toList ["B".toList]) = false :=
  ⟨by decide, C6_self_message_rejected _ _ _ (by decide)⟩

/-- C7: every `handleMention` run removes the identifier it inserted into
`processingMessages` on every exit path (success, Claude failure, delivery
failure, including a failing error reply), so the identifier never survives
the run. -/
theorem C7_inflight_always_released (s : Finset String) (id : String)
    (fate : PipelineFate) :
    handleMentionTracking s id fate = s.erase id ∧
      id ∉ handleMentionTracking s id fate := by
  cases fate <;>
    simp [handleMentionTracking, Finset.erase_insert_eq_erase]

/-- C10: the per-request history fetch limit is `min(maxHistoryMessages, 100)`;
it never exceeds 100, and is exactly 100 whenever the configured maximum
exceeds 100. -/
theorem C10_fetch_limit_capped (l : ℕ) :
    fetchRequestLimit l = min l 100 ∧ fetchRequestLimit l ≤ 100 ∧
      (100 < l → fetchRequestLimit l = 100) := by
  refine ⟨rfl, min_le_right l 100, fun h => ?_⟩
  simpa [fetchRequestLimit] using Nat.min_eq_right (Nat.le_of_lt h)

/-- C10 witness: with a configured maximum of 150 the request asks for
exactly 100 messages. -/
theorem C10_fetch_limit_capped_witness :
    fetchRequestLimit 150 = min 150 100 ∧ fetchRequestLimit 150 ≤ 100 ∧
      fetchRequestLimit 150 = 100 :=
  ⟨(C10_fetch_limit_capped 150).1, (C10_fetch_limit_capped 150).2.1,
    (C10_fetch_limit_capped 150).2.2 (by decide)⟩

/-- C3 counterexample: in test mode a bot message from the designated caller
bot that contains no mention is rejected, so acceptance is not equivalent to
`authorId = designated caller id` alone. -/
theorem C3_caller_without_mention_rejected :
    (InboundMessage.mk callerBotId true "hello".toList []).authorBot = true ∧
    (InboundMessage.mk callerBotId true "hello".toList []).authorId ≠ "B".toList ∧
    ¬(MessageProcessingRules.shouldProcess "B".toList true
        (InboundMessage.mk callerBotId true "hello".toList []) = true ↔
      (InboundMessage.mk callerBotId true "hello".toList []).authorId
        = callerBotId) := by
  decide

/-- C3 amended: for a bot-authored message that is not the bot's own, the
classifier accepts exactly when test mode is on, the author is the designated
caller bot, and the message mentions the bot; in particular every such
message is rejected in normal mode. -/
theorem C3_bot_author_acceptance (botId : List Char) (testMode : Bool)
    (m : InboundMessage) (hbot : m.authorBot = true)
    (hne : m.authorId ≠ botId) :
    MessageProcessingRules.shouldProcess botId testMode m = true ↔
      (testMode = true ∧ m.authorId = callerBotId ∧
        MessageProcessingRules.hasMention botId m = true) := by
  simp only [MessageProcessingRules.shouldProcess,
    MessageProcessingRules.isOwnMessage, MessageProcessingRules.shouldProcessBotMessage,
    hbot, hne, decide_eq_true_eq]
  by_cases hm : m.authorId = callerBotId <;> cases testMode <;>
    simp [hm, hne]

/-- C3 witness: concrete caller-bot message with a mention is accepted in
test mode. -/
theorem C3_bot_author_acceptance_witness :
    (InboundMessage.mk callerBotId true "<@B> hi".toList []).authorBot = true ∧
    (InboundMessage.mk callerBotId true "<@B> hi".toList []).authorId ≠ "B".toList ∧
    (MessageProcessingRules.shouldProcess "B".toList true
        (InboundMessage.mk callerBotId true "<@B> hi".toList []) = true ↔
      (true = true ∧
        (InboundMessage.mk callerBotId true "<@B> hi".toList []).authorId
          = callerBotId ∧
        MessageProcessingRules.hasMention "B".toList
          (InboundMessage.mk callerBotId true "<@B> hi".toList []) = true)) :=
  ⟨by decide, by decide,
    C3_bot_author_acceptance _ _ _ (by decide) (by decide)⟩

/-- C4 counterexample: a successful CLI run whose stdout is whitespace-only
yields a returned (success) value — the empty string — not a thrown failure. -/
theorem C4_whitespace_success_not_failure :
    (CommandResult.mk true " \n ".toList []).success = true ∧
    (completionOutcome (CommandResult.mk true " \n ".toList [])).isOk = true ∧
    completionOutcome (CommandResult.mk true " \n ".toList [])
      = ExecOutcome.ok [] := by
  decide

/-- Trimming an all-whitespace string yields the empty string. -/
theorem jsTrim_eq_nil_of_all_ws (s : List Char) (h : s.all isWS = true) :
    jsTrim s = [] := by
  have hd : s.dropWhile isWS = [] :=
    List.dropWhile_eq_nil_iff.mpr (by simpa [List.all_eq_true] using h)
  simp [jsTrim, hd]

/-- C4 amended: a successful CLI completion always returns `stdout.trim()`;
in particular whitespace-only stdout yields the empty response string rather
than any failure outcome. -/
theorem C4_success_returns_trimmed (r : CommandResult)
    (h : r.success = true) :
    completionOutcome r = ExecOutcome.ok (jsTrim r.stdout) ∧
      (r.stdout.all isWS = true → completionOutcome r = ExecOutcome.ok []) := by
  constructor
  · simp [completionOutcome, h]
  · intro hws
    simp [completionOutcome, h, jsTrim_eq_nil_of_all_ws r.stdout hws]

/-- C4 witness: concrete whitespace-only success evaluates to the empty
success outcome. -/
theorem C4_success_returns_trimmed_witness :
    (CommandResult.mk true "  ".toList []).success = true ∧
    completionOutcome (CommandResult.mk true "  ".toList [])
        = ExecOutcome.ok (jsTrim "  ".toList) ∧
      ((CommandResult.mk true "  ".toList []).stdout.all isWS = true →
        completionOutcome (CommandResult.mk true "  ".toList [])
          = ExecOutcome.ok []) :=
  ⟨by decide, C4_success_returns_trimmed _ (by decide)⟩

/-- C5 counterexample: the timer callback performs no process-termination
effect — its only effect is rejecting the race promise — so the running task
is not signaled to stop when the timer fires. -/
theorem C5_timer_does_not_kill :
    TimerEffect.killProcess ∉ timerFireEffects := by
  decide

/-- C5 amended: when the timer wins the race the outcome is the timeout
error and never a success, for every possible command result; but the timer
callback only rejects the promise and does not signal the task to stop. -/
theorem C5_timer_first_times_out :
    raceOutcome RaceWinner.timer = ExecOutcome.timedOut ∧
    (∀ t : List Char, raceOutcome RaceWinner.timer ≠ ExecOutcome.ok t) ∧
    timerFireEffects = [TimerEffect.rejectPromise] := by
  refine ⟨rfl, fun t h => ?_, rfl⟩
  simp [raceOutcome] at h

/-- C9: for a non-empty chunk list the delivery trace sends the first chunk
as an unprefixed direct reply, every later chunk as a plain channel post
prefixed with the continuation marker, strictly in order, with a
`1000 / ratePerSecond` millisecond wait between consecutive sends. -/
theorem C9_delivery_order_and_framing (rate : ℚ) (c0 : List Char)
    (rest : List (List Char)) :
    sendMultipleMessages rate (c0 :: rest) =
      SendAction.reply c0 :: SendAction.wait (1000 / rate) ::
        rest.flatMap fun c =>
          [SendAction.channelSend (contMarker ++ c),
            SendAction.wait (1000 / rate)] := by
  have aux : ∀ (l : List (List Char)) (i : ℕ),
      (List.enumFrom (i + 1) l).flatMap (fun p => sendChunkActions rate p.1 p.2) =
        l.flatMap fun c =>
          [SendAction.channelSend (contMarker ++ c),
            SendAction.wait (1000 / rate)] := by
    intro l
    induction l with
    | nil => intro i; rfl
    | cons c cs ih =>
      intro i
      simpa [sendChunkActions] using ih (i + 1)
  simpa [sendMultipleMessages, List.enum_cons, sendChunkActions] using aux rest 0

/-- C2 counterexample: with `maxHistoryMessages = 1` a fetch that returns one
prior message (respecting the request limit) produces a record of length 2,
exceeding the configured maximum. -/
theorem C2_record_exceeds_max :
    fetchedCount (FetchOutcome.ok [FetchedMessage.mk "u" "" "hi" "T1"])
        ≤ fetchRequestLimit 1 ∧
    (getThreadHistory (FetchOutcome.ok [FetchedMessage.mk "u" "" "hi" "T1"])
        (FetchedMessage.mk "v" "" "yo" "T2")).length = 2 ∧
    ¬(getThreadHistory (FetchOutcome.ok [FetchedMessage.mk "u" "" "hi" "T1"])
        (FetchedMessage.mk "v" "" "yo" "T2")).length ≤ 1 := by
  decide

/-- C2 amended: provided the collaborator honors the requested limit, the
assembled record is non-empty, ends with the entry of the triggering message,
has at most `min(maxHistoryMessages, 100) + 1` entries (one more than the
configured maximum when the fetch fills the window), consists of the
reversed fetch result followed by the triggering entry, and is ordered
oldest-first whenever the fetch result was newest-first. -/
theorem C2_record_invariant (maxHistory : ℕ) (fetch : FetchOutcome)
    (msg : FetchedMessage)
    (hbound : fetchedCount fetch ≤ fetchRequestLimit maxHistory) :
    getThreadHistory fetch msg ≠ [] ∧
    (getThreadHistory fetch msg).getLast? = some (toEntry msg) ∧
    (getThreadHistory fetch msg).length ≤ fetchRequestLimit maxHistory + 1 ∧
    (∀ msgs, fetch = FetchOutcome.ok msgs →
      getThreadHistory fetch msg = msgs.reverse.map toEntry ++ [toEntry msg]) ∧
    (∀ msgs, fetch = FetchOutcome.ok msgs →
      msgs.Pairwise (fun a b => b.createdAt ≤ a.createdAt) →
      (msgs.reverse.map toEntry).Pairwise
        (fun a b => a.timestamp ≤ b.timestamp)) := by
  cases fetch with
  | err =>
    refine ⟨by simp [getThreadHistory, fetchChannelMessages], ?_, ?_, ?_, ?_⟩
    · simp [getThreadHistory, fetchChannelMessages]
    · simp [getThreadHistory, fetchChannelMessages]
    · intro msgs h; cases h
    · intro msgs h; cases h
  | ok msgs =>
    have hform : getThreadHistory (FetchOutcome.ok msgs) msg =
        msgs.reverse.map toEntry ++ [toEntry msg] := by
      simp [getThreadHistory, fetchChannelMessages]
    refine ⟨?_, ?_, ?_, ?_, ?_⟩
    · simp [hform]
    · simp [hform]
    · have : msgs.length ≤ fetchRequestLimit maxHistory := by
        simpa [fetchedCount] using hbound
      simp [hform]; omega
    · intro ms h; cases h; exact hform
    · intro ms h hpw; cases h
      rw [List.pairwise_map, List.pairwise_reverse]
      exact hpw.imp fun h => h

/-- C2 witness: a concrete two-prior-message fetch (newest first) under
`maxHistoryMessages = 5` yields the invariant instance. -/
theorem C2_record_invariant_witness :
    fetchedCount (FetchOutcome.ok [FetchedMessage.mk "u" "" "b" "T2",
        FetchedMessage.mk "u" "" "a" "T1"]) ≤ fetchRequestLimit 5 ∧
    (getThreadHistory (FetchOutcome.ok [FetchedMessage.mk "u" "" "b" "T2",
          FetchedMessage.mk "u" "" "a" "T1"])
        (FetchedMessage.mk "v" "" "c" "T3") ≠ [] ∧
      (getThreadHistory (FetchOutcome.ok [FetchedMessage.mk "u" "" "b" "T2",
            FetchedMessage.mk "u" "" "a" "T1"])
          (FetchedMessage.mk "v" "" "c" "T3")).getLast?
        = some (toEntry (FetchedMessage.mk "v" "" "c" "T3")) ∧
      (getThreadHistory (FetchOutcome.ok [FetchedMessage.mk "u" "" "b" "T2",
            FetchedMessage.mk "u" "" "a" "T1"])
          (FetchedMessage.mk "v" "" "c" "T3")).length
        ≤ fetchRequestLimit 5 + 1 ∧
      (∀ msgs, FetchOutcome.ok [FetchedMessage.mk "u" "" "b" "T2",
            FetchedMessage.mk "u" "" "a" "T1"] = FetchOutcome.ok msgs →
        getThreadHistory (FetchOutcome.ok [FetchedMessage.mk "u" "" "b" "T2",
              FetchedMessage.mk "u" "" "a" "T1"])
            (FetchedMessage.mk "v" "" "c" "T3")
          = msgs.reverse.map toEntry
              ++ [toEntry (FetchedMessage.mk "v" "" "c" "T3")]) ∧
      (∀ msgs, FetchOutcome.ok [FetchedMessage.mk "u" "" "b" "T2",
            FetchedMessage.mk "u" "" "a" "T1"] = FetchOutcome.ok msgs →
        msgs.Pairwise (fun a b => b.createdAt ≤ a.createdAt) →
        (msgs.reverse.map toEntry).Pairwise
          (fun a b => a.timestamp ≤ b.timestamp))) :=
  ⟨by decide, C2_record_invariant 5 _ _ (by decide)⟩

/-- C1: evaluating the splitter at the failing input: with `maxLength = 4`,
the input `"aa bbbbbb"` produces the chunk `"bbbbbb"` of length 6 — the
oversized word bypasses the character-level hard split because the word loop
assigns it to a non-empty `currentChunk` without a length check
(`src/rules/MessageSplitter.ts` line 35). -/
theorem C1_chunk_exceeds_limit :
    MessageSplitter.split "aa bbbbbb".toList 4 =
        ["aa".toList, "bbbbbb".toList] ∧
      ∃ c ∈ MessageSplitter.split "aa bbbbbb".toList 4, 4 < c.length := by
  decide

/-- C8 counterexample: `" a "` has length 3 ≤ 3, yet `split(" a ", 3)`
returns `["a"]` (the final flush trims), not `[" a "]`. -/
theorem C8_short_input_not_identity :
    (" a ".toList.length ≤ 3) ∧
      MessageSplitter.split " a ".toList 3 ≠ [" a ".toList] ∧
      MessageSplitter.split " a ".toList 3 = ["a".toList] := by
  decide

/-- Splitting never yields the empty list of lines. -/
theorem jsSplit_ne_nil (sep : Char) (s : List Char) : jsSplit sep s ≠ [] := by
  cases s with
  | nil => simp [jsSplit]
  | cons c t =>
    simp only [jsSplit]
    split
    · simp
    · cases hsp : jsSplit sep t <;> simp

/-- Line sizes (plus separators) add up to the input length plus one. -/
theorem sumNL_jsSplit (s : List Char) :
    sumNL (jsSplit '\n' s) = s.length + 1 := by
  induction s with
  | nil => simp [jsSplit, sumNL]
  | cons c t ih =>
    simp only [jsSplit]
    split
    · simp [sumNL] at ih ⊢
      omega
    · cases hsp : jsSplit '\n' t with
      | nil => exact absurd hsp (jsSplit_ne_nil '\n' t)
      | cons h r =>
        rw [hsp] at ih
        simp [sumNL] at ih ⊢
        omega

/-- Re-joining the split lines recovers the input. -/
theorem joinLines_jsSplit (s : List Char) :
    joinLines (jsSplit '\n' s) = s := by
  induction s with
  | nil => simp [jsSplit, joinLines, tailJoin]
  | cons c t ih =>
    simp only [jsSplit]
    split_ifs with h
    · cases hsp : jsSplit '\n' t with
      | nil => exact absurd hsp (jsSplit_ne_nil '\n' t)
      | cons hd r =>
        rw [hsp] at ih
        simp only [joinLines, tailJoin] at ih ⊢
        subst h
        simpa using ih
    · cases hsp : jsSplit '\n' t with
      | nil => exact absurd hsp (jsSplit_ne_nil '\n' t)
      | cons hd r =>
        rw [hsp] at ih
        simp only [joinLines] at ih ⊢
        simp [ih]

/-- With a non-empty accumulator, appending lines is plain newline joining. -/
theorem appendLines_of_ne (ls : List (List Char)) :
    ∀ curr : List Char, curr ≠ [] → appendLines curr ls = curr ++ tailJoin ls := by
  induction ls with
  | nil => intro curr _; simp [appendLines, tailJoin]
  | cons l rest ih =>
    intro curr hc
    have hstep : appendLines curr (l :: rest)
        = appendLines (curr ++ ['\n'] ++ l) rest := by
      simp only [appendLines, List.foldl_cons, if_neg hc]
    rw [hstep, ih _ (by simp)]
    simp [tailJoin]

/-- Appending the lines of `s` onto the empty accumulator yields `s` without
its leading newlines (leading empty lines are absorbed silently). -/
theorem appendLines_nil_jsSplit (s : List Char) :
    appendLines [] (jsSplit '\n' s) = s.dropWhile isNL := by
  induction s with
  | nil => simp [jsSplit, appendLines]
  | cons c t ih =>
    simp only [jsSplit]
    split_ifs with h
    · subst h
      have : appendLines [] ([] :: jsSplit '\n' t)
          = appendLines [] (jsSplit '\n' t) := by
        simp [appendLines, List.foldl_cons]
      rw [this, ih]
      simp [List.dropWhile, isNL]
    · cases hsp : jsSplit '\n' t with
      | nil => exact absurd hsp (jsSplit_ne_nil '\n' t)
      | cons hd r =>
        have hstep : appendLines [] ((c :: hd) :: r)
            = appendLines (c :: hd) r := by
          simp [appendLines, List.foldl_cons]
        rw [hstep, appendLines_of_ne r (c :: hd) (by simp)]
        have hj : joinLines (jsSplit '\n' t) = t := joinLines_jsSplit t
        rw [hsp] at hj
        simp only [joinLines] at hj
        simp [List.dropWhile, isNL, h, hj]

/-- Dropping with a weaker prefix predicate first does not change the result
of dropping with a stronger one. -/
theorem dropWhile_dropWhile_of_imp (p q : Char → Bool)
    (himp : ∀ c, q c = true → p c = true) :
    ∀ s : List Char, (s.dropWhile q).dropWhile p = s.dropWhile p := by
  intro s
  induction s with
  | nil => rfl
  | cons c t ih =>
    by_cases hq : q c = true
    · simp [List.dropWhile_cons, hq, himp c hq, ih]
    · simp [List.dropWhile_cons, hq]

/-- Trimming ignores leading newlines. -/
theorem jsTrim_dropWhile_isNL (s : List Char) :
    jsTrim (s.dropWhile isNL) = jsTrim s := by
  have h : (s.dropWhile isNL).dropWhile isWS = s.dropWhile isWS :=
    dropWhile_dropWhile_of_imp isWS isNL
      (fun c hc => by
        simp [isNL] at hc
        simp [isWS, hc]) s
  simp [jsTrim, h]

/-- A line short enough for its own chunk never flushes an empty accumulator. -/
theorem processLine_nil_curr (n : ℕ) (chunks : List (List Char))
    (l : List Char) (hl : l.length ≤ n) :
    processLine n (chunks, []) l = (chunks, l) := by
  simp only [processLine]
  split
  · rw [if_neg (by omega : ¬ l.length > n)]
    simp
  · simp

/-- When the accumulator plus the next line still fit, the line loop only
appends (newline-separated). -/
theorem processLine_cons_curr (n : ℕ) (chunks : List (List Char))
    (curr l : List Char) (hc : curr ≠ [])
    (hlen : curr.length + l.length + 1 ≤ n) :
    processLine n (chunks, curr) l = (chunks, curr ++ ['\n'] ++ l) := by
  simp only [processLine]
  rw [if_neg (by omega : ¬ curr.length + l.length + 1 > n), if_neg hc]

/-- When the whole input fits within the limit the line loop never flushes:
the fold just accumulates every line. -/
theorem foldl_processLine_eq (n : ℕ) :
    ∀ (ls : List (List Char)) (chunks : List (List Char)) (curr : List Char),
      (curr = [] → sumNL ls ≤ n + 1) →
      (curr ≠ [] → curr.length + sumNL ls ≤ n) →
      ls.foldl (processLine n) (chunks, curr) = (chunks, appendLines curr ls) := by
  intro ls
  induction ls with
  | nil => intro chunks curr _ _; simp [appendLines]
  | cons l rest ih =>
    intro chunks curr h1 h2
    by_cases hc : curr = []
    · subst hc
      have hsum : l.length + 1 + sumNL rest ≤ n + 1 := by
        have := h1 rfl
        simpa [sumNL] using this
      have hl : l.length ≤ n := by omega
      rw [List.foldl_cons, processLine_nil_curr n chunks l hl]
      have happ : appendLines [] (l :: rest) = appendLines l rest := by
        simp [appendLines, List.foldl_cons]
      rw [happ]
      exact ih chunks l
        (fun he => by subst he; simp only [List.length_nil] at hsum; omega)
        (fun _ => by omega)
    · have hsum : curr.length + (l.length + 1 + sumNL rest) ≤ n := by
        have := h2 hc
        simpa [sumNL] using this
      rw [List.foldl_cons, processLine_cons_curr n chunks curr l hc (by omega)]
      have happ : appendLines curr (l :: rest)
          = appendLines (curr ++ ['\n'] ++ l) rest := by
        simp only [appendLines, List.foldl_cons, if_neg hc]
      rw [happ]
      exact ih chunks (curr ++ ['\n'] ++ l)
        (fun he => by simp at he)
        (fun _ => by simp; omega)

/-- C8 amended: on input that already fits the limit, `split` returns the
single trimmed input — `[text.trim()]` — or the empty list when the input is
whitespace-only; it returns `[text]` itself only when trimming is the
identity on it. -/
theorem C8_short_input_trimmed (text : List Char) (n : ℕ)
    (h : text.length ≤ n) :
    MessageSplitter.split text n =
      if jsTrim text = [] then [] else [jsTrim text] := by
  have hfold := foldl_processLine_eq n (jsSplit '\n' text) [] []
    (fun _ => by rw [sumNL_jsSplit]; omega)
    (fun hc => absurd rfl hc)
  simp only [MessageSplitter.split]
  rw [hfold, appendLines_nil_jsSplit]
  by_cases ht : jsTrim text = []
  · have : jsTrim (text.dropWhile isNL) = [] := by
      rw [jsTrim_dropWhile_isNL]; exact ht
    simp [this, ht]
  · have htd : jsTrim (text.dropWhile isNL) ≠ [] := by
      rw [jsTrim_dropWhile_isNL]; exact ht
    have hne : text.dropWhile isNL ≠ [] := by
      intro he
      rw [he] at htd
      exact htd rfl
    simp [htd, hne, ht, jsTrim_dropWhile_isNL]

/-- C8 witness: a concrete short input is returned as its single trimmed
chunk. -/
theorem C8_short_input_trimmed_witness :
    ("hi".toList.length ≤ 10) ∧
      MessageSplitter.split "hi".toList 10 =
        if jsTrim "hi".toList = [] then [] else [jsTrim "hi".toList] :=
  ⟨by decide, C8_short_input_trimmed _ _ (by decide)⟩

end DiscordBot
